import Mathlib

/-!
Verification of the `aws-sqs` Go client, package `sqs` (files `aws.go` and
`sqs.go`).

Modelling conventions:
* Go strings are sequences of bytes; they are modelled as `List Nat` with each
  element below 256.  ASCII string literals are converted with `bts`.
* Go maps (`map[string]string`, `url.Values`) are modelled as association
  lists (`List (List Nat × List Nat)`); `url.Values.Set` is modelled
  extensionally (replace any binding of the key).  Go map iteration order is
  arbitrary, so functions that range over a map take the iteration order as a
  list argument.
* Functions from the Go standard library that the package calls
  (`net/url.QueryEscape`, `net/url.QueryUnescape`, `net/url.Values.Encode`,
  `net/url.Parse`, `net/url.URL.String`, `crypto/sha256`, `crypto/hmac`,
  `encoding/base64`, `http.NewRequest`) are modelled from their documented
  behaviour and source, restricted to the inputs this client can produce
  (absolute URLs without userinfo validation subtleties, single-valued
  `url.Values`).
* `time.Now()` is I/O; the formatted timestamp is passed as an argument.
-/

/-- Bytes of an ASCII string literal (for code points below 128 the UTF-8
bytes coincide with the code points). -/
def bts (s : String) : List Nat := s.data.map Char.toNat

/-- ASCII alphanumeric class used by Go `net/url.shouldEscape`. -/
def isAlphaNum (b : Nat) : Bool :=
  (48 ≤ b && b ≤ 57) || (65 ≤ b && b ≤ 90) || (97 ≤ b && b ≤ 122)

/-- Bytes never escaped by Go `net/url.shouldEscape` in any mode:
alphanumerics and `-`, `_`, `.`, `~`. -/
def isUnreserved (b : Nat) : Bool :=
  isAlphaNum b || b == 45 || b == 95 || b == 46 || b == 126

/-- Upper-case hexadecimal digit, as in Go `net/url` (`"0123456789ABCDEF"`). -/
def hexDigit (n : Nat) : Nat := if n < 10 then 48 + n else 55 + n

/-- Model of Go `url.QueryEscape` (= `escape(s, encodeQueryComponent)`):
unreserved bytes kept, space becomes `+`, every other byte becomes `%XX`. -/
def queryEscape : List Nat → List Nat
  | [] => []
  | b :: rest =>
    (if isUnreserved b then [b]
     else if b = 32 then [43]
     else [37, hexDigit (b / 16), hexDigit (b % 16)]) ++ queryEscape rest

/-- Value of a hexadecimal digit byte, as accepted by Go `net/url.unhex`
(`0-9`, `a-f`, `A-F`). -/
def hexVal (b : Nat) : Option Nat :=
  if 48 ≤ b ∧ b ≤ 57 then some (b - 48)
  else if 97 ≤ b ∧ b ≤ 102 then some (b - 87)
  else if 65 ≤ b ∧ b ≤ 70 then some (b - 55)
  else none

/-- Model of Go `url.QueryUnescape` (= `unescape(s, encodeQueryComponent)`):
`%XX` decodes to a byte (malformed escapes are an error), `+` decodes to
space. -/
def queryUnescape : List Nat → Option (List Nat)
  | [] => some []
  | b :: rest =>
    if b = 37 then
      match rest with
      | a :: c :: rest2 =>
        match hexVal a, hexVal c with
        | some x, some y => (queryUnescape rest2).map fun t => (16 * x + y) :: t
        | _, _ => none
      | _ => none
    else if b = 43 then (queryUnescape rest).map fun t => 32 :: t
    else (queryUnescape rest).map fun t => b :: t

theorem hexVal_hexDigit (n : Nat) (h : n < 16) : hexVal (hexDigit n) = some n := by
  unfold hexDigit
  rcases Nat.lt_or_ge n 10 with h10 | h10
  · rw [if_pos h10]
    unfold hexVal
    rw [if_pos (by omega)]
    congr 1
    omega
  · rw [if_neg (by omega)]
    unfold hexVal
    rw [if_neg (by omega), if_neg (by omega), if_pos (by omega)]
    congr 1
    omega

theorem queryUnescape_other (b : Nat) (rest : List Nat) (h37 : b ≠ 37) (h43 : b ≠ 43) :
    queryUnescape (b :: rest) = (queryUnescape rest).map fun t => b :: t := by
  rw [queryUnescape.eq_def]
  simp only [if_neg h37, if_neg h43]

theorem queryUnescape_plus (rest : List Nat) :
    queryUnescape (43 :: rest) = (queryUnescape rest).map fun t => 32 :: t := by
  rw [queryUnescape.eq_def]
  exact rfl

theorem queryUnescape_percent (a c : Nat) (rest : List Nat) :
    queryUnescape (37 :: a :: c :: rest) =
      match hexVal a, hexVal c with
      | some x, some y => (queryUnescape rest).map fun t => (16 * x + y) :: t
      | _, _ => none := by
  rw [queryUnescape.eq_def]
  exact rfl

theorem isUnreserved_ne_37 (b : Nat) (h : isUnreserved b = true) : b ≠ 37 := by
  intro hb; subst hb; simp [isUnreserved, isAlphaNum] at h

theorem isUnreserved_ne_43 (b : Nat) (h : isUnreserved b = true) : b ≠ 43 := by
  intro hb; subst hb; simp [isUnreserved, isAlphaNum] at h

theorem queryUnescape_queryEscape (m : List Nat) (hm : ∀ b ∈ m, b < 256) :
    queryUnescape (queryEscape m) = some m := by
  induction m with
  | nil => rfl
  | cons b rest ih =>
    have hb : b < 256 := hm b (by simp)
    have ihr : queryUnescape (queryEscape rest) = some rest :=
      ih (fun c hc => hm c (by simp [hc]))
    by_cases hu : isUnreserved b = true
    · rw [queryEscape, if_pos hu, List.singleton_append,
        queryUnescape_other b _ (isUnreserved_ne_37 b hu) (isUnreserved_ne_43 b hu), ihr]
      rfl
    · by_cases hsp : b = 32
      · subst hsp
        rw [queryEscape, if_neg hu, if_pos rfl, List.singleton_append,
          queryUnescape_plus, ihr]
        rfl
      · rw [queryEscape, if_neg hu, if_neg hsp, List.cons_append, List.cons_append,
          List.cons_append, List.nil_append, queryUnescape_percent]
        rw [hexVal_hexDigit (b / 16) (by omega), hexVal_hexDigit (b % 16) (by omega), ihr]
        have hd : 16 * (b / 16) + b % 16 = b := by omega
        simp [hd]

/-- Model of Go `url.Values` as used by this client: an association list of
(key, value) byte strings.  Every key is bound at most once, because all
bindings are made through `url.Values.Set`. -/
abbrev Values := List (List Nat × List Nat)

/-- Model of Go `url.Values.Set` (`v[key] = []string{value}`): bind `key` to
exactly `value`, replacing any previous binding of the key. -/
def setValue (uv : Values) (k v : List Nat) : Values :=
  (k, v) :: uv.filter fun p => ¬ p.1 = k

/-- Model of the Go map read `v[key][0]` as an option: first-match lookup. -/
def getVal? : Values → List Nat → Option (List Nat)
  | [], _ => none
  | p :: rest, k => if p.1 = k then some p.2 else getVal? rest k

/-- The keys of a `Values` map, in insertion order. -/
def valKeys (uv : Values) : List (List Nat) := uv.map Prod.fst

/-- Every key is bound at most once. -/
def keysNodup (uv : Values) : Prop := (valKeys uv).Nodup

/-- Model of Go `url.Values.Encode`: collect the keys, sort them byte-wise
lexicographically (`sort.Strings`), and emit `QueryEscape(k)=QueryEscape(v)`
joined by `&`.  (This client only ever builds single-valued maps, via `Set`.) -/
def encodeValues (uv : Values) : List Nat :=
  List.intercalate [38]
    ((List.insertionSort (· ≤ ·) (valKeys uv)).map fun k =>
      queryEscape k ++ [61] ++ queryEscape ((getVal? uv k).getD []))

theorem getVal?_cons (p : List Nat × List Nat) (rest : Values) (k : List Nat) :
    getVal? (p :: rest) k = if p.1 = k then some p.2 else getVal? rest k := by
  rw [getVal?.eq_def]

theorem getVal?_filter_ne (uv : Values) (k k' : List Nat) (h : k ≠ k') :
    getVal? (uv.filter fun p => ¬ p.1 = k) k' = getVal? uv k' := by
  induction uv with
  | nil => rfl
  | cons p rest ih =>
    rw [List.filter_cons]
    by_cases hp : p.1 = k
    · rw [if_neg (by simp [hp]), ih, getVal?_cons,
        if_neg (fun hh : p.1 = k' => h ((hp.symm.trans hh)))]
    · rw [if_pos (by simp [hp]), getVal?_cons, getVal?_cons]
      by_cases hk' : p.1 = k'
      · rw [if_pos hk', if_pos hk']
      · rw [if_neg hk', if_neg hk', ih]

theorem getVal?_setValue (uv : Values) (k v k' : List Nat) :
    getVal? (setValue uv k v) k' = if k = k' then some v else getVal? uv k' := by
  unfold setValue
  rw [getVal?]
  by_cases h : k = k'
  · rw [if_pos h, if_pos h]
  · rw [if_neg h, if_neg h, getVal?_filter_ne uv k k' h]

theorem getVal?_eq_some_of_mem (uv : Values) (k v : List Nat)
    (hnd : keysNodup uv) (hmem : (k, v) ∈ uv) : getVal? uv k = some v := by
  induction uv with
  | nil => cases hmem
  | cons p rest ih =>
    rcases List.mem_cons.mp hmem with heq | hmem'
    · rw [← heq, getVal?, if_pos rfl]
    · have hk : p.1 ≠ k := by
        intro hpk
        have : k ∈ valKeys rest := List.mem_map.mpr ⟨(k, v), hmem', rfl⟩
        have hnd' := hnd
        unfold keysNodup valKeys at hnd'
        rw [List.map_cons, List.nodup_cons] at hnd'
        exact hnd'.1 (hpk ▸ this)
      rw [getVal?, if_neg hk]
      refine ih ?_ hmem'
      unfold keysNodup valKeys at hnd ⊢
      rw [List.map_cons, List.nodup_cons] at hnd
      exact hnd.2

theorem getVal?_eq_none_iff (uv : Values) (k : List Nat) :
    getVal? uv k = none ↔ k ∉ valKeys uv := by
  induction uv with
  | nil => simp [getVal?, valKeys]
  | cons p rest ih =>
    rw [getVal?]
    unfold valKeys
    rw [List.map_cons, List.mem_cons]
    by_cases h : p.1 = k
    · rw [if_pos h]
      simp [h]
    · rw [if_neg h]
      unfold valKeys at ih
      rw [ih]
      constructor
      · intro hn hc
        rcases hc with hc | hc
        · exact h hc.symm
        · exact hn hc
      · intro hn hc
        exact hn (Or.inr hc)

theorem encodeValues_perm (uv uv' : Values) (hperm : uv.Perm uv')
    (hnd : keysNodup uv) : encodeValues uv = encodeValues uv' := by
  have hk : (valKeys uv).Perm (valKeys uv') := hperm.map Prod.fst
  have hnd' : keysNodup uv' := (hk.nodup_iff).mp hnd
  have hsorted :
      List.insertionSort (· ≤ ·) (valKeys uv) = List.insertionSort (· ≤ ·) (valKeys uv') := by
    refine List.eq_of_perm_of_sorted ?_ (List.sorted_insertionSort _ _)
      (List.sorted_insertionSort _ _)
    exact (List.perm_insertionSort _ _).trans (hk.trans (List.perm_insertionSort _ _).symm)
  unfold encodeValues
  rw [hsorted]
  congr 1
  refine List.map_congr_left ?_
  intro k hkmem
  have hkuv : k ∈ valKeys uv' := by
    have := (List.perm_insertionSort (· ≤ ·) (valKeys uv')).mem_iff.mp hkmem
    exact this
  rcases List.mem_map.mp hkuv with ⟨⟨k0, v0⟩, hp, hpk⟩
  have hp' : (k, v0) ∈ uv' := by
    have hk0 : k0 = k := hpk
    rw [← hk0]
    exact hp
  have hviv' : getVal? uv' k = some v0 :=
    getVal?_eq_some_of_mem uv' k v0 hnd' hp'
  have hviv : getVal? uv k = some v0 :=
    getVal?_eq_some_of_mem uv k v0 hnd (hperm.mem_iff.mpr hp')
  rw [hviv, hviv']

/-- Truncation to a 32-bit word. -/
def w32 (n : Nat) : Nat := n % 4294967296

/-- Right rotation of a 32-bit word. -/
def rotr32 (x n : Nat) : Nat := w32 (Nat.lor (x >>> n) (x <<< (32 - n)))

def smallSigma0 (x : Nat) : Nat := (rotr32 x 7) ^^^ (rotr32 x 18) ^^^ (x >>> 3)

def smallSigma1 (x : Nat) : Nat := (rotr32 x 17) ^^^ (rotr32 x 19) ^^^ (x >>> 10)

def bigSigma0 (x : Nat) : Nat := (rotr32 x 2) ^^^ (rotr32 x 13) ^^^ (rotr32 x 22)

def bigSigma1 (x : Nat) : Nat := (rotr32 x 6) ^^^ (rotr32 x 11) ^^^ (rotr32 x 25)

/-- The 64 SHA-256 round constants. -/
def sha256K : List Nat :=
  [1116352408, 1899447441, 3049323471, 3921009573, 961987163,
   1508970993, 2453635748, 2870763221, 3624381080, 310598401,
   607225278, 1426881987, 1925078388, 2162078206, 2614888103,
   3248222580, 3835390401, 4022224774, 264347078, 604807628,
   770255983, 1249150122, 1555081692, 1996064986, 2554220882,
   2821834349, 2952996808, 3210313671, 3336571891, 3584528711,
   113926993, 338241895, 666307205, 773529912, 1294757372,
   1396182291, 1695183700, 1986661051, 2177026350, 2456956037,
   2730485921, 2820302411, 3259730800, 3345764771, 3516065817,
   3600352804, 4094571909, 275423344, 430227734, 506948616,
   659060556, 883997877, 958139571, 1322822218, 1537002063,
   1747873779, 1955562222, 2024104815, 2227730452, 2361852424,
   2428436474, 2756734187, 3204031479, 3329325298]

/-- The SHA-256 initial hash state. -/
def sha256H0 : List Nat :=
  [1779033703, 3144134277, 1013904242, 2773480762,
   1359893119, 2600822924, 528734635, 1541459225]

/-- Big-endian 4-byte words from bytes. -/
def bytesToWords : List Nat → List Nat
  | b0 :: b1 :: b2 :: b3 :: rest =>
    (((b0 * 256 + b1) * 256 + b2) * 256 + b3) :: bytesToWords rest
  | _ => []

/-- Extend the message schedule, accumulator kept newest-first. -/
def extendW (acc : List Nat) : Nat → List Nat
  | 0 => acc
  | n + 1 =>
    let g := fun i => ((acc.drop i).headD 0)
    extendW (w32 (smallSigma1 (g 1) + g 6 + smallSigma0 (g 14) + g 15) :: acc) n

/-- One round of the SHA-256 compression function on an 8-word state. -/
def sha256Round (st : List Nat) (ki wi : Nat) : List Nat :=
  match st with
  | [a, b, c, d, e, f, g, h] =>
    let ch := (e &&& f) ^^^ ((e ^^^ 4294967295) &&& g)
    let maj := (a &&& b) ^^^ (a &&& c) ^^^ (b &&& c)
    let t1 := w32 (h + bigSigma1 e + ch + ki + wi)
    let t2 := w32 (bigSigma0 a + maj)
    [w32 (t1 + t2), a, b, c, w32 (d + t1), e, f, g]
  | other => other

/-- Compress one 64-byte block into the state. -/
def sha256Block (st : List Nat) (block : List Nat) : List Nat :=
  let w := (extendW (bytesToWords block).reverse 48).reverse
  let st2 := (sha256K.zip w).foldl (fun s kw => sha256Round s kw.1 kw.2) st
  List.zipWith (fun x y => w32 (x + y)) st st2

/-- Big-endian 8-byte encoding of a number (the length field of the padding). -/
def beBytes8 (n : Nat) : List Nat :=
  [n / 2 ^ 56 % 256, n / 2 ^ 48 % 256, n / 2 ^ 40 % 256, n / 2 ^ 32 % 256,
   n / 2 ^ 24 % 256, n / 2 ^ 16 % 256, n / 2 ^ 8 % 256, n % 256]

/-- SHA-256 padding: `0x80`, zeros to 56 mod 64, 8-byte big-endian bit length. -/
def sha256Pad (msg : List Nat) : List Nat :=
  msg ++ [128] ++ List.replicate ((119 - msg.length % 64) % 64) 0 ++
    beBytes8 (msg.length * 8)

/-- Fold the compression function over consecutive 64-byte blocks. -/
def sha256Blocks (st : List Nat) (l : List Nat) : List Nat :=
  if h : l = [] then st
  else sha256Blocks (sha256Block st (l.take 64)) (l.drop 64)
termination_by l.length
decreasing_by
  have : 0 < l.length := List.length_pos.mpr h
  simp [List.length_drop]
  omega

/-- Big-endian bytes of a list of 32-bit words. -/
def wordsToBytes : List Nat → List Nat
  | [] => []
  | w :: rest => [w / 2 ^ 24 % 256, w / 2 ^ 16 % 256, w / 2 ^ 8 % 256, w % 256] ++ wordsToBytes rest

/-- Model of Go `crypto/sha256`: the SHA-256 digest (32 bytes) of a byte
string. -/
def sha256 (msg : List Nat) : List Nat :=
  wordsToBytes (sha256Blocks sha256H0 (sha256Pad msg))

/-- Model of Go `crypto/hmac` over SHA-256 (`hmac.New(sha256.New, key)`,
block size 64). -/
def hmacSha256 (key msg : List Nat) : List Nat :=
  let k0 := if key.length > 64 then sha256 key else key
  let kpad := k0 ++ List.replicate (64 - k0.length) 0
  let ipad := kpad.map fun b => b ^^^ 54
  let opad := kpad.map fun b => b ^^^ 92
  sha256 (opad ++ sha256 (ipad ++ msg))

/-- Byte of the standard base64 alphabet at index `n`
(`encoding/base64.StdEncoding`). -/
def b64Char (n : Nat) : Nat :=
  if n < 26 then 65 + n
  else if n < 52 then 97 + (n - 26)
  else if n < 62 then 48 + (n - 52)
  else if n = 62 then 43
  else 47

/-- Model of Go `encoding/base64` standard encoding with `=` padding. -/
def base64Encode : List Nat → List Nat
  | [] => []
  | [b0] => [b64Char (b0 / 4), b64Char (b0 % 4 * 16), 61, 61]
  | [b0, b1] => [b64Char (b0 / 4), b64Char (b0 % 4 * 16 + b1 / 16), b64Char (b1 % 16 * 4), 61]
  | b0 :: b1 :: b2 :: rest =>
    [b64Char (b0 / 4), b64Char (b0 % 4 * 16 + b1 / 16),
     b64Char (b1 % 16 * 4 + b2 / 64), b64Char (b2 % 64)] ++ base64Encode rest


/-- The fields of Go `net/url.URL` that this client reads. -/
structure URL where
  scheme : List Nat
  host : List Nat
  path : List Nat
deriving DecidableEq, Repr

/-- Control bytes, rejected outright by Go `net/url.Parse`
(`stringContainsCTLByte`). -/
def isCtl (b : Nat) : Bool := b < 32 || b == 127

/-- Bytes kept unescaped by Go `escape(s, encodeHost)`: unreserved bytes and
the host sub-delimiters. -/
def hostNoEscape (b : Nat) : Bool :=
  isUnreserved b || b == 33 || b == 36 || b == 38 || b == 39 || b == 40 ||
    b == 41 || b == 42 || b == 43 || b == 44 || b == 59 || b == 61 ||
    b == 58 || b == 91 || b == 93 || b == 60 || b == 62 || b == 34

/-- Bytes kept unescaped by Go `escape(s, encodePath)`: unreserved bytes and
the sub-delimiters valid in a path segment (`?` is escaped). -/
def pathNoEscape (b : Nat) : Bool :=
  isUnreserved b || b == 36 || b == 38 || b == 43 || b == 44 || b == 47 ||
    b == 58 || b == 59 || b == 61 || b == 64

/-- Percent-escape every byte not allowed by `keep` (Go `escape` outside the
query component: no space-to-plus rule). -/
def escapeWith (keep : Nat → Bool) : List Nat → List Nat
  | [] => []
  | b :: rest =>
    (if keep b then [b] else [37, hexDigit (b / 16), hexDigit (b % 16)]) ++
      escapeWith keep rest

/-- Model of Go `net/url.unescape` outside query mode: `%XX` decodes to a
byte, every other byte (including `+`) stands for itself; malformed escapes
are an error. -/
def percentUnescape : List Nat → Option (List Nat)
  | [] => some []
  | b :: rest =>
    if b = 37 then
      match rest with
      | a :: c :: rest2 =>
        match hexVal a, hexVal c with
        | some x, some y => (percentUnescape rest2).map fun t => (16 * x + y) :: t
        | _, _ => none
      | _ => none
    else (percentUnescape rest).map fun t => b :: t

def isAlpha (b : Nat) : Bool := (65 ≤ b && b ≤ 90) || (97 ≤ b && b ≤ 122)

def isSchemeByte (b : Nat) : Bool := isAlphaNum b || b == 43 || b == 45 || b == 46

/-- Valid scheme names (Go `getScheme`): a letter followed by letters, digits,
`+`, `-`, `.`. -/
def isSchemeName (s : List Nat) : Bool :=
  match s with
  | [] => false
  | b :: rest => isAlpha b && rest.all isSchemeByte

def isDigitByte (b : Nat) : Bool := 48 ≤ b && b ≤ 57

/-- Go `validOptionalPort` applied as in `parseHost`: when the authority
contains a `:`, everything after the last `:` must be decimal digits. -/
def validPortSplit (h : List Nat) : Bool :=
  if h.any fun b => b == 58 then (h.reverse.takeWhile fun b => b != 58).all isDigitByte
  else true

/-- The Go parser keeps only what follows the last `@` of the authority
(userinfo validation is not modelled). -/
def stripUserinfo (auth : List Nat) : List Nat :=
  if auth.any fun b => b == 64 then (auth.reverse.takeWhile fun b => b != 64).reverse
  else auth

/-- Model of Go `net/url.parseHost` for non-bracketed hosts: validate the
optional numeric port after the last `:`, then percent-unescape. -/
def parseHost (h : List Nat) : Option (List Nat) :=
  if validPortSplit h then percentUnescape h else none

/-- Continuation of `net/url.Parse` after scheme extraction: `//authority`
splitting, query stripping, percent-unescaping of the path; URLs with a
scheme but no `//` and no rooted path are opaque (empty `Host` and `Path`). -/
def parseAfterScheme (scheme rest : List Nat) : Option URL :=
  if rest.take 2 = [47, 47] then
    let afterSlashes := rest.drop 2
    let authority := afterSlashes.takeWhile fun b => !(b == 47 || b == 63)
    match parseHost (stripUserinfo authority) with
    | none => none
    | some host =>
      let rawPath := (afterSlashes.drop authority.length).takeWhile fun b => b != 63
      match percentUnescape rawPath with
      | none => none
      | some path => some ⟨scheme, host, path⟩
  else if scheme ≠ [] ∧ rest.take 1 ≠ [47] then some ⟨scheme, [], []⟩
  else
    match percentUnescape (rest.takeWhile fun b => b != 63) with
    | none => none
    | some path => some ⟨scheme, [], path⟩

/-- Model of Go `net/url.Parse`, restricted to the URL shapes this client can
meet: control-byte rejection, fragment stripping, scheme recognition (a `:`
preceded by a non-scheme prefix means no scheme; a leading `:` is an error),
then `parseAfterScheme`.  Bracketed IPv6 hosts are not modelled. -/
def parseURL (s : List Nat) : Option URL :=
  if s.any isCtl then none
  else
    let noFrag := s.takeWhile fun b => b != 35
    let pre := noFrag.takeWhile fun b => b != 58
    if pre.length = noFrag.length then parseAfterScheme [] noFrag
    else if pre = [] then none
    else if isSchemeName pre then parseAfterScheme pre (noFrag.drop (pre.length + 1))
    else parseAfterScheme [] noFrag

/-- Model of Go `net/url.URL.String` for the URL shapes this client builds
(scheme plus host plus rooted path): scheme, `://`, host escaped in host
mode, path escaped in path mode. -/
def urlString (u : URL) : List Nat :=
  u.scheme ++ [58, 47, 47] ++ escapeWith hostNoEscape u.host ++
    escapeWith pathNoEscape u.path

/-- Model of `GenerateSignature` (`aws.go` lines 12-33): parse the URI
(returning the empty string when parsing fails), join the method, the URL
host, the URL path and the encoded parameter set with newlines, take the
HMAC-SHA256 of that payload keyed by the secret, and base64-encode the raw
digest. -/
def GenerateSignature (sqsURI method secret : List Nat) (uv : Values) : List Nat :=
  match parseURL sqsURI with
  | none => []
  | some u =>
    base64Encode (hmacSha256 secret
      (method ++ [10] ++ u.host ++ [10] ++ u.path ++ [10] ++ encodeValues uv))

/-- Go error values produced by the modelled code paths. -/
inductive GoErr where
  | errNew (msg : List Nat)
  | statusErr (code : Nat)
  | urlParseErr
  | unescapeErr (s : List Nat)
deriving DecidableEq, Repr

/-- The `SQSRequest` client record (`sqs.go` lines 53-59). -/
structure SQSRequest where
  RegionId : List Nat
  UUID : List Nat
  QueueName : List Nat
  AWSAccessKey : List Nat
  AWSSecret : List Nat
deriving DecidableEq, Repr

/-- Model of `generateSQSQueueURI` (`sqs.go` lines 111-119): serialize
`url.URL{Scheme: "https", Host: "sqs.<region>.amazonaws.com",
Path: "/<uuid>/<queueName>/"}`. -/
def generateSQSQueueURI (s : SQSRequest) : List Nat :=
  urlString ⟨bts "https",
    bts "sqs." ++ s.RegionId ++ bts ".amazonaws.com",
    [47] ++ s.UUID ++ [47] ++ s.QueueName ++ [47]⟩

/-- Model of `generateSQSURI` (`sqs.go` lines 121-128): re-parse the queue
URI (discarding the error) and serialize it again with path `/`.  When the
parse fails Go dereferences a nil `*url.URL` and panics; that case is
modelled as the empty string. -/
def generateSQSURI (s : SQSRequest) : List Nat :=
  match parseURL (generateSQSQueueURI s) with
  | some u => urlString { u with path := [47] }
  | none => []

/-- The URI `makeSQSRequest` signs and posts to (`sqs.go` lines 70-73). -/
def endpointURI (s : SQSRequest) (isQueueRequest : Bool) : List Nat :=
  if isQueueRequest then generateSQSQueueURI s else generateSQSURI s

/-- The `url.Values` of `makeSQSRequest` just before the signature is added
(`sqs.go` lines 77-86): the five fixed `Set`s, then one `Set` per caller
parameter in map-iteration order. -/
def preSignValues (s : SQSRequest) (ts : List Nat) (params : Values) : Values :=
  params.foldl (fun uv p => setValue uv p.1 p.2)
    (setValue (setValue (setValue (setValue (setValue []
      (bts "AWSAccessKeyId") s.AWSAccessKey)
      (bts "SignatureVersion") (bts "2"))
      (bts "SignatureMethod") (bts "HmacSHA256"))
      (bts "Version") (bts "2012-11-05"))
      (bts "Timestamp") ts)

/-- The dispatcher's fixed fields as a plain association list. -/
def fixedFields (s : SQSRequest) (ts : List Nat) : Values :=
  [(bts "AWSAccessKeyId", s.AWSAccessKey),
   (bts "SignatureVersion", bts "2"),
   (bts "SignatureMethod", bts "HmacSHA256"),
   (bts "Version", bts "2012-11-05"),
   (bts "Timestamp", ts)]

/-- The `url.Values` after `sqs.go` line 88 adds the `Signature` key. -/
def signedValues (s : SQSRequest) (ts : List Nat) (params : Values)
    (isQueueRequest : Bool) : Values :=
  let uv := preSignValues s ts params
  setValue uv (bts "Signature")
    (GenerateSignature (endpointURI s isQueueRequest) (bts "POST") s.AWSSecret uv)

/-- An HTTP request as handed to `client.Do`. -/
structure SentRequest where
  method : List Nat
  url : URL
  body : List Nat
deriving DecidableEq, Repr

/-- Model of `makeSQSRequest` up to and including `http.NewRequest`
(`sqs.go` lines 69-93): assemble the signed form body and build the request.
`http.NewRequest` parses `sqsURI` with `net/url.Parse` and fails exactly
when that parse fails, in which case `makeSQSRequest` returns before any
network I/O. -/
def assembleRequest (s : SQSRequest) (params : Values) (isQueueRequest : Bool)
    (ts : List Nat) : Except GoErr SentRequest :=
  let sqsURI := endpointURI s isQueueRequest
  let uv2 := signedValues s ts params isQueueRequest
  match parseURL sqsURI with
  | none => .error .urlParseErr
  | some u => .ok ⟨bts "POST", u, encodeValues uv2⟩

/-- Model of `makeSQSRequest`'s status check (`sqs.go` lines 104-108): the
response body is returned unconditionally; any status other than
`http.StatusOK` (200) adds an error carrying the status. -/
def classifyResponse (status : Nat) (body : List Nat) : List Nat × Option GoErr :=
  if status = 200 then (body, none) else (body, some (.statusErr status))

/-- Model of `makeSQSRequest` (`sqs.go` lines 69-109) given the network
response: the returned (body?, error?) pair, together with the request that
was handed to `client.Do` — `none` when the call aborted before any network
I/O. -/
def makeSQSRequestModel (s : SQSRequest) (params : Values) (isQueueRequest : Bool)
    (ts : List Nat) (respStatus : Nat) (respBody : List Nat) :
    (Option (List Nat) × Option GoErr) × Option SentRequest :=
  match assembleRequest s params isQueueRequest ts with
  | .error e => ((none, some e), none)
  | .ok req =>
    ((some (classifyResponse respStatus respBody).1,
      (classifyResponse respStatus respBody).2), some req)

/-- Decimal digits of `n` (Go `fmt.Sprintf("%d", n)`). -/
def natBytes (n : Nat) : List Nat := bts (toString n)

/-- The attribute parameters added by `CreateQueue`'s loop (`sqs.go` lines
248-253): for each option, `Attribute.<count>.Name` and
`Attribute.<count>.Value`, with `count` starting at 1. -/
def attrParams : Nat → Values → Values
  | _, [] => []
  | count, (name, value) :: rest =>
    (bts "Attribute." ++ natBytes count ++ bts ".Name", name) ::
    (bts "Attribute." ++ natBytes count ++ bts ".Value", value) ::
    attrParams (count + 1) rest

/-- The parameter map assembled by `CreateQueue` (`sqs.go` lines 243-253),
with the `options` map given in iteration order. -/
def createQueueParams (queueName : List Nat) (options : Values) : Values :=
  (bts "Action", bts "CreateQueue") :: (bts "QueueName", queueName) ::
    attrParams 1 options

/-- One call to an action method of the client with its semantic arguments
(`options` carries the CreateQueue attribute map in iteration order). -/
inductive ActionCall where
  | sendMessage (message : List Nat)
  | receiveMessage
  | deleteMessage (handle : List Nat)
  | createQueue (queueName : List Nat) (options : Values)
  | listQueues (namePfx : List Nat)
  | queueURL
deriving Repr

/-- The parameter map each action method passes to the dispatcher
(`sqs.go` lines 130-253; `SendSQSMessage` percent-escapes the message body
first, line 131). -/
def actionParams (s : SQSRequest) : ActionCall → Values
  | .sendMessage m =>
    [(bts "Action", bts "SendMessage"), (bts "MessageBody", queryEscape m)]
  | .receiveMessage => [(bts "Action", bts "ReceiveMessage")]
  | .deleteMessage h =>
    [(bts "Action", bts "DeleteMessage"), (bts "ReceiptHandle", h)]
  | .createQueue qn opts => createQueueParams qn opts
  | .listQueues npfx =>
    [(bts "Action", bts "ListQueues"), (bts "QueueNamePrefix", npfx)]
  | .queueURL => [(bts "Action", bts "GetQueueUrl"), (bts "QueueName", s.QueueName)]

/-- Whether the action dispatches through `makeSQSQueueRequest` (`true`) or
`makeSQSAdminRequest` (`false`), `sqs.go` lines 61-67 and 130-255. -/
def actionIsQueue : ActionCall → Bool
  | .sendMessage _ => true
  | .receiveMessage => true
  | .deleteMessage _ => true
  | .createQueue _ _ => false
  | .listQueues _ => false
  | .queueURL => false

/-- The decoded `RecvMessageResponse` (`sqs.go` lines 31-37). -/
structure RecvMessageResponse where
  MessageId : List Nat
  MessageMD5 : List Nat
  MessageBody : List Nat
  ReceiptHandle : List Nat
  RequestId : List Nat
deriving DecidableEq, Repr

/-- The post-decode steps of `ReceiveSQSMessage` (`sqs.go` lines 170-179),
applied to the struct decoded from the response XML: an empty body together
with an empty digest yields the "No message to dequeue." error; otherwise
the body is percent-decoded with `url.QueryUnescape`, a decoding failure is
returned as an error, and on success the struct is returned with the decoded
body. -/
def receiveClassify (rmr : RecvMessageResponse) : Except GoErr RecvMessageResponse :=
  if rmr.MessageBody = [] ∧ rmr.MessageMD5 = [] then
    .error (.errNew (bts "No message to dequeue."))
  else
    match queryUnescape rmr.MessageBody with
    | none => .error (.unescapeErr rmr.MessageBody)
    | some body => .ok { rmr with MessageBody := body }

theorem mem_of_getVal? (uv : Values) (k v : List Nat) (h : getVal? uv k = some v) :
    (k, v) ∈ uv := by
  induction uv with
  | nil => cases h
  | cons p rest ih =>
    rw [getVal?_cons] at h
    by_cases hp : p.1 = k
    · rw [if_pos hp] at h
      have hv : p.2 = v := Option.some.inj h
      have hpkv : p = (k, v) := by
        cases p
        simp only at hp hv
        rw [hp, hv]
      rw [← hpkv]
      exact List.mem_cons_self p rest
    · rw [if_neg hp] at h
      exact List.mem_cons_of_mem p (ih h)

theorem getVal?_perm (uv uv' : Values) (hperm : uv.Perm uv') (hnd : keysNodup uv)
    (k : List Nat) : getVal? uv k = getVal? uv' k := by
  cases hv : getVal? uv k with
  | some v =>
    have hm : (k, v) ∈ uv' := hperm.mem_iff.mp (mem_of_getVal? uv k v hv)
    have hnd' : keysNodup uv' := ((hperm.map Prod.fst).nodup_iff).mp hnd
    exact (getVal?_eq_some_of_mem uv' k v hnd' hm).symm
  | none =>
    have hk : k ∉ valKeys uv := (getVal?_eq_none_iff uv k).mp hv
    have hk' : k ∉ valKeys uv' := fun hc => hk ((hperm.map Prod.fst).mem_iff.mpr hc)
    exact ((getVal?_eq_none_iff uv' k).mpr hk').symm

theorem keysNodup_tail (p : List Nat × List Nat) (rest : Values)
    (hnd : keysNodup (p :: rest)) : keysNodup rest := by
  unfold keysNodup valKeys at hnd ⊢
  rw [List.map_cons, List.nodup_cons] at hnd
  exact hnd.2

theorem getVal?_foldl_of_none (params : Values) :
    ∀ (uv : Values) (k : List Nat), getVal? params k = none →
      getVal? (params.foldl (fun acc p => setValue acc p.1 p.2) uv) k = getVal? uv k := by
  induction params with
  | nil => intro uv k _; rfl
  | cons p rest ih =>
    intro uv k hnone
    rw [getVal?_cons] at hnone
    by_cases hp : p.1 = k
    · rw [if_pos hp] at hnone; cases hnone
    · rw [if_neg hp] at hnone
      rw [List.foldl_cons, ih (setValue uv p.1 p.2) k hnone, getVal?_setValue,
        if_neg hp]

theorem getVal?_foldl_of_some (params : Values) :
    ∀ (uv : Values) (k v : List Nat), keysNodup params → getVal? params k = some v →
      getVal? (params.foldl (fun acc p => setValue acc p.1 p.2) uv) k = some v := by
  induction params with
  | nil => intro uv k v _ hsome; cases hsome
  | cons p rest ih =>
    intro uv k v hnd hsome
    rw [getVal?_cons] at hsome
    rw [List.foldl_cons]
    by_cases hp : p.1 = k
    · rw [if_pos hp] at hsome
      have hrest : getVal? rest k = none := by
        refine (getVal?_eq_none_iff rest k).mpr ?_
        intro hc
        unfold keysNodup valKeys at hnd
        rw [List.map_cons, List.nodup_cons] at hnd
        exact hnd.1 (hp ▸ hc)
      rw [getVal?_foldl_of_none rest (setValue uv p.1 p.2) k hrest,
        getVal?_setValue, if_pos hp, hsome]
    · rw [if_neg hp] at hsome
      exact ih (setValue uv p.1 p.2) k v (keysNodup_tail p rest hnd) hsome

/-- Number of bindings of key `k` in a `Values` map. -/
def countKey (uv : Values) (k : List Nat) : Nat :=
  uv.countP fun p => decide (p.1 = k)

theorem countKey_setValue (uv : Values) (k v : List Nat) :
    countKey (setValue uv k v) k = 1 := by
  unfold countKey setValue
  rw [List.countP_cons]
  have h0 : (uv.filter fun p => ¬ p.1 = k).countP (fun p => decide (p.1 = k)) = 0 := by
    rw [List.countP_eq_zero]
    intro a ha
    have hmem := List.mem_filter.mp ha
    simpa using hmem.2
  rw [h0]
  simp

theorem preSignValues_eq_foldl (s : SQSRequest) (ts : List Nat) (params : Values) :
    preSignValues s ts params =
      params.foldl (fun acc p => setValue acc p.1 p.2) ((fixedFields s ts).reverse) := by
  rfl

theorem keysNodup_fixedFields_reverse (s : SQSRequest) (ts : List Nat) :
    keysNodup ((fixedFields s ts).reverse) := by
  unfold keysNodup
  have hk : valKeys ((fixedFields s ts).reverse) =
      [bts "Timestamp", bts "Version", bts "SignatureMethod",
       bts "SignatureVersion", bts "AWSAccessKeyId"] := by rfl
  rw [hk]
  decide

theorem getVal?_fixedBase (s : SQSRequest) (ts : List Nat) (k : List Nat) :
    getVal? ((fixedFields s ts).reverse) k = getVal? (fixedFields s ts) k :=
  getVal?_perm _ _ (List.reverse_perm (fixedFields s ts))
    (keysNodup_fixedFields_reverse s ts) k

/-- Bytes that appear in identifier components (region, account id, queue
name) without triggering any URL escaping or structure: ASCII alphanumerics
and `-`, `_`, `.`. -/
def safeByte (b : Nat) : Bool := isAlphaNum b || b == 45 || b == 95 || b == 46

/-- Bytes of a safe rooted path: safe bytes and `/`. -/
def pathByte (b : Nat) : Bool := safeByte b || b == 47

theorem takeWhile_append_stop (p : Nat → Bool) (xs : List Nat) (y : Nat)
    (ys : List Nat) (hxs : ∀ b ∈ xs, p b = true) (hy : p y = false) :
    (xs ++ y :: ys).takeWhile p = xs := by
  induction xs with
  | nil =>
    rw [List.nil_append, List.takeWhile_cons, if_neg (by rw [hy]; exact Bool.false_ne_true)]
  | cons a rest ih =>
    rw [List.cons_append, List.takeWhile_cons, if_pos (hxs a (List.mem_cons_self a rest)),
      ih (fun b hb => hxs b (List.mem_cons_of_mem a hb))]

theorem takeWhile_all (p : Nat → Bool) (xs : List Nat) (hxs : ∀ b ∈ xs, p b = true) :
    xs.takeWhile p = xs := by
  induction xs with
  | nil => rfl
  | cons a rest ih =>
    rw [List.takeWhile_cons, if_pos (hxs a (List.mem_cons_self a rest)),
      ih (fun b hb => hxs b (List.mem_cons_of_mem a hb))]

theorem any_eq_false_of (p : Nat → Bool) (xs : List Nat)
    (h : ∀ b ∈ xs, p b = false) : xs.any p = false := by
  induction xs with
  | nil => rfl
  | cons a rest ih =>
    rw [List.any_cons, h a (List.mem_cons_self a rest),
      ih (fun b hb => h b (List.mem_cons_of_mem a hb))]
    rfl

theorem percentUnescape_other (b : Nat) (rest : List Nat) (h37 : b ≠ 37) :
    percentUnescape (b :: rest) = (percentUnescape rest).map fun t => b :: t := by
  rw [percentUnescape.eq_def]
  simp only [if_neg h37]

theorem percentUnescape_all (xs : List Nat) (h : ∀ b ∈ xs, b ≠ 37) :
    percentUnescape xs = some xs := by
  induction xs with
  | nil => rfl
  | cons a rest ih =>
    rw [percentUnescape_other a rest (h a (List.mem_cons_self a rest)),
      ih (fun b hb => h b (List.mem_cons_of_mem a hb))]
    rfl

theorem escapeWith_all (keep : Nat → Bool) (xs : List Nat)
    (h : ∀ b ∈ xs, keep b = true) : escapeWith keep xs = xs := by
  induction xs with
  | nil => rfl
  | cons a rest ih =>
    rw [escapeWith, if_pos (h a (List.mem_cons_self a rest)),
      ih (fun b hb => h b (List.mem_cons_of_mem a hb)), List.singleton_append]

theorem safeByte_arith (b : Nat) (h : safeByte b = true) :
    isCtl b = false ∧ (b != 35) = true ∧ (b != 58) = true ∧
      (!(b == 47 || b == 63)) = true ∧ (b == 64) = false ∧ (b == 58) = false ∧
      b ≠ 37 ∧ (b != 63) = true ∧ hostNoEscape b = true ∧ pathNoEscape b = true := by
  simp only [safeByte, isAlphaNum, Bool.or_eq_true, Bool.and_eq_true,
    decide_eq_true_eq, beq_iff_eq] at h
  refine ⟨?_, ?_, ?_, ?_, ?_, ?_, ?_, ?_, ?_, ?_⟩
  · simp only [isCtl, Bool.or_eq_false_iff, decide_eq_false_iff_not, beq_eq_false_iff_ne]
    omega
  · simp only [bne_iff_ne]; omega
  · simp only [bne_iff_ne]; omega
  · simp only [Bool.not_eq_true', Bool.or_eq_false_iff, beq_eq_false_iff_ne]
    omega
  · simp only [beq_eq_false_iff_ne]; omega
  · simp only [beq_eq_false_iff_ne]; omega
  · omega
  · simp only [bne_iff_ne]; omega
  · simp only [hostNoEscape, isUnreserved, isAlphaNum, Bool.or_eq_true,
      Bool.and_eq_true, decide_eq_true_eq, beq_iff_eq]
    omega
  · simp only [pathNoEscape, isUnreserved, isAlphaNum, Bool.or_eq_true,
      Bool.and_eq_true, decide_eq_true_eq, beq_iff_eq]
    omega

theorem pathByte_arith (b : Nat) (h : pathByte b = true) :
    isCtl b = false ∧ (b != 35) = true ∧ b ≠ 37 ∧ (b != 63) = true ∧
      pathNoEscape b = true := by
  simp only [pathByte, Bool.or_eq_true, beq_iff_eq] at h
  rcases h with h | h
  · have hs := safeByte_arith b h
    exact ⟨hs.1, hs.2.1, hs.2.2.2.2.2.2.1, hs.2.2.2.2.2.2.2.1, hs.2.2.2.2.2.2.2.2.2⟩
  · subst h
    refine ⟨by decide, by decide, by decide, by decide, by decide⟩

theorem parseURL_urlString_safe (host tail : List Nat)
    (hh : ∀ b ∈ host, safeByte b = true) (ht : ∀ b ∈ tail, pathByte b = true) :
    parseURL (urlString ⟨bts "https", host, 47 :: tail⟩)
      = some ⟨bts "https", host, 47 :: tail⟩ := by
  have hhost : escapeWith hostNoEscape host = host :=
    escapeWith_all _ _ (fun b hb => (safeByte_arith b (hh b hb)).2.2.2.2.2.2.2.2.1)
  have hpath : escapeWith pathNoEscape (47 :: tail) = 47 :: tail := by
    refine escapeWith_all _ _ ?_
    intro b hb
    rcases List.mem_cons.mp hb with hb | hb
    · subst hb; decide
    · exact (pathByte_arith b (ht b hb)).2.2.2.2
  have hshape : ([58, 47, 47] : List Nat) ++ (host ++ 47 :: tail)
      = 58 :: 47 :: 47 :: (host ++ 47 :: tail) := rfl
  have hus : urlString ⟨bts "https", host, 47 :: tail⟩
      = bts "https" ++ 58 :: 47 :: 47 :: (host ++ 47 :: tail) := by
    unfold urlString
    rw [hhost, hpath]
    rfl
  rw [hus]
  have hmem : ∀ b ∈ bts "https" ++ 58 :: 47 :: 47 :: (host ++ 47 :: tail),
      safeByte b = true ∨ b = 58 ∨ b = 47 := by
    intro b hb
    rw [← hshape] at hb
    rcases List.mem_append.mp hb with h1 | hb2
    · exact Or.inl ((by decide : ∀ x ∈ bts "https", safeByte x = true) b h1)
    rcases List.mem_append.mp hb2 with h2 | hb3
    · rcases (by decide : ∀ x ∈ ([58, 47, 47] : List Nat), x = 58 ∨ x = 47) b h2 with h | h
      · exact Or.inr (Or.inl h)
      · exact Or.inr (Or.inr h)
    rcases List.mem_append.mp hb3 with h3 | h4
    · exact Or.inl (hh b h3)
    rcases List.mem_cons.mp h4 with h5 | h6
    · exact Or.inr (Or.inr h5)
    · have hp := ht b h6
      simp only [pathByte, Bool.or_eq_true, beq_iff_eq] at hp
      rcases hp with h | h
      · exact Or.inl h
      · exact Or.inr (Or.inr h)
  have hctl : (bts "https" ++ 58 :: 47 :: 47 :: (host ++ 47 :: tail)).any isCtl = false := by
    refine any_eq_false_of _ _ ?_
    intro b hb
    rcases hmem b hb with h | h | h
    · exact (safeByte_arith b h).1
    · subst h; decide
    · subst h; decide
  have hfrag : (bts "https" ++ 58 :: 47 :: 47 :: (host ++ 47 :: tail)).takeWhile
      (fun b => b != 35) = bts "https" ++ 58 :: 47 :: 47 :: (host ++ 47 :: tail) := by
    refine takeWhile_all _ _ ?_
    intro b hb
    rcases hmem b hb with h | h | h
    · exact (safeByte_arith b h).2.1
    · subst h; decide
    · subst h; decide
  have hpre : (bts "https" ++ 58 :: 47 :: 47 :: (host ++ 47 :: tail)).takeWhile
      (fun b => b != 58) = bts "https" :=
    takeWhile_append_stop _ _ _ _ (by decide) (by decide)
  have hdrop : (bts "https" ++ 58 :: 47 :: 47 :: (host ++ 47 :: tail)).drop
      ((bts "https").length + 1) = 47 :: 47 :: (host ++ 47 :: tail) := by
    have h1 : bts "https" ++ 58 :: 47 :: 47 :: (host ++ 47 :: tail)
        = (bts "https" ++ [58]) ++ (47 :: 47 :: (host ++ 47 :: tail)) := by simp
    have h2 : (bts "https").length + 1 = (bts "https" ++ [58]).length := by simp
    rw [h1, h2, List.drop_left]
  unfold parseURL
  rw [hctl]
  simp only [Bool.false_eq_true, if_false]
  rw [hfrag, hpre]
  rw [if_neg (by simp [List.length_append])]
  rw [if_neg (by decide), if_pos (by decide)]
  rw [hdrop]
  unfold parseAfterScheme
  rw [if_pos (show (47 :: 47 :: (host ++ 47 :: tail)).take 2 = [47, 47] from rfl)]
  rw [show (47 :: 47 :: (host ++ 47 :: tail)).drop 2 = host ++ 47 :: tail from rfl]
  have hauth : (host ++ 47 :: tail).takeWhile (fun b => !(b == 47 || b == 63)) = host :=
    takeWhile_append_stop _ _ _ _
      (fun b hb => (safeByte_arith b (hh b hb)).2.2.2.1) (by decide)
  have hstrip : stripUserinfo host = host := by
    unfold stripUserinfo
    rw [if_neg (by
      rw [any_eq_false_of _ _ (fun b hb => (safeByte_arith b (hh b hb)).2.2.2.2.1)]
      exact Bool.false_ne_true)]
  have hvp : validPortSplit host = true := by
    unfold validPortSplit
    rw [if_neg (by
      rw [any_eq_false_of _ _ (fun b hb => (safeByte_arith b (hh b hb)).2.2.2.2.2.1)]
      exact Bool.false_ne_true)]
  have hph : parseHost host = some host := by
    unfold parseHost
    rw [if_pos hvp,
      percentUnescape_all host (fun b hb => (safeByte_arith b (hh b hb)).2.2.2.2.2.2.1)]
  have hq : (47 :: tail : List Nat).takeWhile (fun b => b != 63) = 47 :: tail := by
    refine takeWhile_all _ _ ?_
    intro b hb
    rcases List.mem_cons.mp hb with hb | hb
    · subst hb; decide
    · exact (pathByte_arith b (ht b hb)).2.2.2.1
  have hpu : percentUnescape (47 :: tail) = some (47 :: tail) := by
    refine percentUnescape_all _ ?_
    intro b hb
    rcases List.mem_cons.mp hb with hb | hb
    · subst hb; decide
    · exact (pathByte_arith b (ht b hb)).2.2.1
  simp only [hauth, hstrip, hph, List.drop_left, hq, hpu]

theorem attrParams_cons (n : Nat) (na va : List Nat) (rest : Values) :
    attrParams n ((na, va) :: rest) =
      (bts "Attribute." ++ natBytes n ++ bts ".Name", na) ::
      (bts "Attribute." ++ natBytes n ++ bts ".Value", va) ::
      attrParams (n + 1) rest := by
  rw [attrParams]

theorem attrkey_ne_sig (x y : List Nat) : bts "Attribute." ++ x ++ y ≠ bts "Signature" := by
  intro h
  have h1 : bts "Attribute." ++ x ++ y = 65 :: (bts "ttribute." ++ x ++ y) := by
    rw [show bts "Attribute." = 65 :: bts "ttribute." from by decide]
    rfl
  rw [h1, show bts "Signature" = 83 :: bts "ignature" from by decide] at h
  simp at h

theorem sig_not_attr (opts : Values) : ∀ (n : Nat),
    bts "Signature" ∉ valKeys (attrParams n opts) := by
  induction opts with
  | nil => intro n h; cases h
  | cons o rest ih =>
    intro n hmem
    obtain ⟨na, va⟩ := o
    rw [attrParams_cons] at hmem
    unfold valKeys at hmem
    rw [List.map_cons, List.map_cons] at hmem
    rcases List.mem_cons.mp hmem with h | hmem2
    · exact attrkey_ne_sig (natBytes n) (bts ".Name") h.symm
    rcases List.mem_cons.mp hmem2 with h | hmem3
    · exact attrkey_ne_sig (natBytes n) (bts ".Value") h.symm
    · exact ih (n + 1) hmem3

theorem sig_not_in_action (call : ActionCall) (s : SQSRequest) :
    bts "Signature" ∉ valKeys (actionParams s call) := by
  cases call with
  | sendMessage m =>
    rw [show valKeys (actionParams s (.sendMessage m))
        = [bts "Action", bts "MessageBody"] from rfl]
    decide
  | receiveMessage =>
    rw [show valKeys (actionParams s .receiveMessage) = [bts "Action"] from rfl]
    decide
  | deleteMessage h =>
    rw [show valKeys (actionParams s (.deleteMessage h))
        = [bts "Action", bts "ReceiptHandle"] from rfl]
    decide
  | createQueue qn opts =>
    intro hmem
    rw [show valKeys (actionParams s (.createQueue qn opts))
        = bts "Action" :: bts "QueueName" :: valKeys (attrParams 1 opts) from rfl] at hmem
    rcases List.mem_cons.mp hmem with h | hmem2
    · exact absurd h (by decide)
    rcases List.mem_cons.mp hmem2 with h | hmem3
    · exact absurd h (by decide)
    · exact sig_not_attr opts 1 hmem3
  | listQueues npfx =>
    rw [show valKeys (actionParams s (.listQueues npfx))
        = [bts "Action", bts "QueueNamePrefix"] from rfl]
    decide
  | queueURL =>
    rw [show valKeys (actionParams s .queueURL) = [bts "Action", bts "QueueName"] from rfl]
    decide

/-- C1: for every endpoint URI that parses (to `u`), every method, secret and
parameter set, `GenerateSignature` returns the base64-encoded HMAC-SHA256,
keyed by the secret, of the canonical string joining the method, the URL
host, the URL path and the key-sorted percent-encoded query encoding of the
parameter set with newlines; and two parameter sets with the same bindings
inserted in different orders (permutations without duplicate keys) yield the
identical signature. -/
theorem signature_canonical_and_order_independent
    (sqsURI method secret : List Nat) (uv uv' : Values) (u : URL)
    (hp : parseURL sqsURI = some u) (hperm : uv.Perm uv') (hnd : keysNodup uv) :
    GenerateSignature sqsURI method secret uv
      = base64Encode (hmacSha256 secret
          (method ++ [10] ++ u.host ++ [10] ++ u.path ++ [10] ++ encodeValues uv))
    ∧ GenerateSignature sqsURI method secret uv
      = GenerateSignature sqsURI method secret uv' := by
  constructor
  · unfold GenerateSignature
    rw [hp]
  · unfold GenerateSignature
    rw [hp, encodeValues_perm uv uv' hperm hnd]

/-- Witness for C1 at a concrete endpoint, secret and two permuted parameter
sets. -/
theorem signature_canonical_witness :
    GenerateSignature (bts "https://sqs.us-east-1.amazonaws.com/123/q/") (bts "POST")
        (bts "secret") [(bts "B", bts "2"), (bts "A", bts "1")]
      = base64Encode (hmacSha256 (bts "secret")
          (bts "POST" ++ [10] ++ bts "sqs.us-east-1.amazonaws.com" ++ [10] ++
            bts "/123/q/" ++ [10] ++ encodeValues [(bts "B", bts "2"), (bts "A", bts "1")]))
    ∧ GenerateSignature (bts "https://sqs.us-east-1.amazonaws.com/123/q/") (bts "POST")
        (bts "secret") [(bts "B", bts "2"), (bts "A", bts "1")]
      = GenerateSignature (bts "https://sqs.us-east-1.amazonaws.com/123/q/") (bts "POST")
        (bts "secret") [(bts "A", bts "1"), (bts "B", bts "2")] :=
  signature_canonical_and_order_independent _ _ _ _ _
    ⟨bts "https", bts "sqs.us-east-1.amazonaws.com", bts "/123/q/"⟩
    (by decide) (by decide) (by unfold keysNodup; decide)

/-- C2 counterexample: on the decoded response with empty body and empty
digest, `ReceiveSQSMessage` returns a Go error value (`errors.New`), not an
error-free empty-result value. -/
theorem receive_empty_is_go_error :
    receiveClassify ⟨[], [], [], [], []⟩
      = .error (.errNew (bts "No message to dequeue.")) := by rfl

/-- C2 (amended): a decoded ReceiveMessage response with empty body and empty
digest yields the distinct sentinel error "No message to dequeue." — not a
decode failure and not a populated result struct. -/
theorem receive_empty_returns_sentinel_error (rmr : RecvMessageResponse)
    (hb : rmr.MessageBody = []) (hm : rmr.MessageMD5 = []) :
    receiveClassify rmr = .error (.errNew (bts "No message to dequeue.")) := by
  unfold receiveClassify
  rw [if_pos ⟨hb, hm⟩]

/-- Witness for the amended C2 at a concrete decoded response. -/
theorem receive_empty_sentinel_witness :
    receiveClassify ⟨bts "mid", [], [], bts "rh", bts "rid"⟩
      = .error (.errNew (bts "No message to dequeue.")) :=
  receive_empty_returns_sentinel_error ⟨bts "mid", [], [], bts "rh", bts "rid"⟩ rfl rfl

/-- C4 counterexample: status 201 lies inside 200–299 but `makeSQSRequest`
classifies it as a protocol error. -/
theorem status_201_treated_as_error :
    200 ≤ 201 ∧ 201 ≤ 299 ∧ (classifyResponse 201 []).2 = some (.statusErr 201) := by
  refine ⟨by decide, by decide, ?_⟩
  rfl

/-- C4 (amended): exactly the statuses different from 200 (`http.StatusOK`)
are classified as protocol errors; only status 200 is success; the raw body
is returned unconditionally in both cases. -/
theorem only_status_200_is_success (status : Nat) (body : List Nat) :
    (classifyResponse status body).1 = body
    ∧ ((classifyResponse status body).2 = none ↔ status = 200) := by
  unfold classifyResponse
  by_cases h : status = 200
  · rw [if_pos h]
    exact ⟨rfl, by simp [h]⟩
  · rw [if_neg h]
    exact ⟨rfl, by simp [h]⟩

/-- C3: when the endpoint URI does not parse, signing fails (the signature is
the empty string) and the call aborts at `http.NewRequest` — which parses the
same URI with the same parser — before any network I/O: no request, with an
empty or degraded signature or otherwise, is ever handed to `client.Do`. -/
theorem unparseable_endpoint_aborts_before_network
    (s : SQSRequest) (params : Values) (isQueueRequest : Bool) (ts : List Nat)
    (respStatus : Nat) (respBody : List Nat)
    (hp : parseURL (endpointURI s isQueueRequest) = none) :
    GenerateSignature (endpointURI s isQueueRequest) (bts "POST") s.AWSSecret
        (preSignValues s ts params) = []
    ∧ makeSQSRequestModel s params isQueueRequest ts respStatus respBody
        = ((none, some .urlParseErr), none) := by
  constructor
  · unfold GenerateSignature
    rw [hp]
  · simp only [makeSQSRequestModel, assembleRequest, hp]

/-- Witness for C3: a region containing `:` makes the generated endpoint URI
fail port validation in `net/url.Parse`. -/
theorem unparseable_endpoint_witness :
    GenerateSignature (endpointURI ⟨bts "a:b", bts "u", bts "q", bts "ak", bts "sec"⟩ true)
        (bts "POST") (bts "sec")
        (preSignValues ⟨bts "a:b", bts "u", bts "q", bts "ak", bts "sec"⟩ (bts "t") []) = []
    ∧ makeSQSRequestModel ⟨bts "a:b", bts "u", bts "q", bts "ak", bts "sec"⟩ [] true
        (bts "t") 200 [] = ((none, some .urlParseErr), none) :=
  unparseable_endpoint_aborts_before_network
    ⟨bts "a:b", bts "u", bts "q", bts "ak", bts "sec"⟩ [] true (bts "t") 200 []
    (by decide)

/-- C5: the percent-encoding that `SendSQSMessage` applies to a message body
and the percent-decoding that `ReceiveSQSMessage` applies to a received body
are mutually inverse: the dispatched `MessageBody` parameter for message `m`
is `QueryEscape m`, and classifying a decoded response carrying exactly that
byte string as its body returns the original `m`. -/
theorem message_body_escape_unescape_roundtrip (m : List Nat)
    (hm : ∀ b ∈ m, b < 256) (s : SQSRequest) (mid md5 rh rid : List Nat)
    (hmd5 : md5 ≠ []) :
    getVal? (actionParams s (.sendMessage m)) (bts "MessageBody") = some (queryEscape m)
    ∧ receiveClassify ⟨mid, md5, queryEscape m, rh, rid⟩ = .ok ⟨mid, md5, m, rh, rid⟩ := by
  constructor
  · rw [show actionParams s (.sendMessage m)
        = [(bts "Action", bts "SendMessage"), (bts "MessageBody", queryEscape m)] from rfl,
      getVal?_cons, if_neg (by decide), getVal?_cons, if_pos rfl]
  · unfold receiveClassify
    rw [if_neg (fun hc => hmd5 hc.2)]
    rw [queryUnescape_queryEscape m hm]

/-- Witness for C5 on a message with a space and punctuation. -/
theorem message_body_roundtrip_witness :
    getVal? (actionParams ⟨[], [], [], [], []⟩ (.sendMessage (bts "hello world!")))
        (bts "MessageBody") = some (queryEscape (bts "hello world!"))
    ∧ receiveClassify ⟨bts "m", bts "d", queryEscape (bts "hello world!"), bts "r", bts "q"⟩
        = .ok ⟨bts "m", bts "d", bts "hello world!", bts "r", bts "q"⟩ :=
  message_body_escape_unescape_roundtrip (bts "hello world!") (by decide)
    ⟨[], [], [], [], []⟩ (bts "m") (bts "d") (bts "r") (bts "q") (by decide)

/-- C7: `CreateQueue` for any queue name with the attribute set
`{"VisibilityTimeout": "40"}` assembles exactly the parameters
`Action=CreateQueue`, `QueueName=<name>`, `Attribute.1.Name=VisibilityTimeout`
and `Attribute.1.Value=40`, with the attribute index starting at 1. -/
theorem createQueue_visibility_params (name : List Nat) :
    createQueueParams name [(bts "VisibilityTimeout", bts "40")]
      = [(bts "Action", bts "CreateQueue"),
         (bts "QueueName", name),
         (bts "Attribute.1.Name", bts "VisibilityTimeout"),
         (bts "Attribute.1.Value", bts "40")] := by
  unfold createQueueParams
  rw [show attrParams 1 [(bts "VisibilityTimeout", bts "40")]
      = [(bts "Attribute.1.Name", bts "VisibilityTimeout"),
         (bts "Attribute.1.Value", bts "40")] from by decide]

/-- C8: the dispatcher's signed parameter set is exactly the five fixed
fields merged with the caller parameters, the caller winning every key
collision: a key bound by the caller keeps the caller's value, and a key not
bound by the caller resolves exactly as in the fixed-field list. -/
theorem dispatcher_params_merge_caller_precedence
    (s : SQSRequest) (ts : List Nat) (params : Values) (hnd : keysNodup params) :
    (∀ k v, getVal? params k = some v →
      getVal? (preSignValues s ts params) k = some v)
    ∧ (∀ k, getVal? params k = none →
      getVal? (preSignValues s ts params) k = getVal? (fixedFields s ts) k) := by
  constructor
  · intro k v hs
    rw [preSignValues_eq_foldl]
    exact getVal?_foldl_of_some params _ k v hnd hs
  · intro k hn
    rw [preSignValues_eq_foldl, getVal?_foldl_of_none params _ k hn, getVal?_fixedBase]

/-- Witness for C8: a caller parameter overriding the fixed `Version` field
takes precedence, and an unbound key resolves to the fixed field. -/
theorem dispatcher_merge_witness :
    getVal? (preSignValues ⟨[], [], [], bts "AK", []⟩ (bts "T0")
        [(bts "Version", bts "override"), (bts "Action", bts "ListQueues")]) (bts "Version")
      = some (bts "override")
    ∧ getVal? (preSignValues ⟨[], [], [], bts "AK", []⟩ (bts "T0")
        [(bts "Version", bts "override"), (bts "Action", bts "ListQueues")]) (bts "Timestamp")
      = getVal? (fixedFields ⟨[], [], [], bts "AK", []⟩ (bts "T0")) (bts "Timestamp") :=
  ⟨(dispatcher_params_merge_caller_precedence ⟨[], [], [], bts "AK", []⟩ (bts "T0")
      [(bts "Version", bts "override"), (bts "Action", bts "ListQueues")]
      (by unfold keysNodup; decide)).1 (bts "Version") (bts "override") (by decide),
   (dispatcher_params_merge_caller_precedence ⟨[], [], [], bts "AK", []⟩ (bts "T0")
      [(bts "Version", bts "override"), (bts "Action", bts "ListQueues")]
      (by unfold keysNodup; decide)).2 (bts "Timestamp") (by decide)⟩

/-- C9: for every dispatched action, the parameter set the signature is
computed over contains no `Signature` key; the `Signature` key is added
exactly once, after `GenerateSignature` returns, bound to the signature of
the pre-signature parameter set. -/
theorem signature_added_once_after_signing (call : ActionCall) (s : SQSRequest)
    (ts : List Nat) :
    getVal? (preSignValues s ts (actionParams s call)) (bts "Signature") = none
    ∧ getVal? (signedValues s ts (actionParams s call) (actionIsQueue call))
        (bts "Signature")
      = some (GenerateSignature (endpointURI s (actionIsQueue call)) (bts "POST")
          s.AWSSecret (preSignValues s ts (actionParams s call)))
    ∧ countKey (signedValues s ts (actionParams s call) (actionIsQueue call))
        (bts "Signature") = 1 := by
  have h1 : getVal? (actionParams s call) (bts "Signature") = none :=
    (getVal?_eq_none_iff _ _).mpr (sig_not_in_action call s)
  have h2 : getVal? (preSignValues s ts (actionParams s call)) (bts "Signature") = none := by
    rw [preSignValues_eq_foldl, getVal?_foldl_of_none _ _ _ h1, getVal?_fixedBase]
    refine (getVal?_eq_none_iff _ _).mpr ?_
    rw [show valKeys (fixedFields s ts)
        = [bts "AWSAccessKeyId", bts "SignatureVersion", bts "SignatureMethod",
           bts "Version", bts "Timestamp"] from rfl]
    decide
  refine ⟨h2, ?_, ?_⟩
  · unfold signedValues
    rw [getVal?_setValue, if_pos rfl]
  · unfold signedValues
    exact countKey_setValue _ _ _

/-- C10: whenever the receive classification succeeds, the decoded digest or
the decoded (still escaped) body is non-empty; and a body that is not valid
percent-encoding makes `ReceiveSQSMessage` return an error and no result even
though the XML decoded. -/
theorem receive_nonempty_and_bad_escape_errors :
    (∀ rmr r : RecvMessageResponse, receiveClassify rmr = .ok r →
      rmr.MessageMD5 ≠ [] ∨ rmr.MessageBody ≠ [])
    ∧ (∀ rmr : RecvMessageResponse, queryUnescape rmr.MessageBody = none →
      ∃ e, receiveClassify rmr = .error e) := by
  constructor
  · intro rmr r h
    unfold receiveClassify at h
    by_cases hc : rmr.MessageBody = [] ∧ rmr.MessageMD5 = []
    · rw [if_pos hc] at h
      cases h
    · rcases not_and_or.mp hc with h1 | h2
      · exact Or.inr h1
      · exact Or.inl h2
  · intro rmr hu
    unfold receiveClassify
    by_cases hc : rmr.MessageBody = [] ∧ rmr.MessageMD5 = []
    · rw [if_pos hc]
      exact ⟨_, rfl⟩
    · rw [if_neg hc, hu]
      exact ⟨_, rfl⟩

/-- Witness for C10: a successful classification with non-empty fields, and
the malformed body `"%"` (an invalid escape) producing an error. -/
theorem receive_invariants_witness :
    ((⟨[], bts "x", bts "hi", [], []⟩ : RecvMessageResponse).MessageMD5 ≠ [] ∨
      (⟨[], bts "x", bts "hi", [], []⟩ : RecvMessageResponse).MessageBody ≠ [])
    ∧ ∃ e, receiveClassify ⟨[], [], [37], [], []⟩ = .error e :=
  ⟨receive_nonempty_and_bad_escape_errors.1 ⟨[], bts "x", bts "hi", [], []⟩
      ⟨[], bts "x", bts "hi", [], []⟩ (by rfl),
   receive_nonempty_and_bad_escape_errors.2 ⟨[], [], [37], [], []⟩ (by decide)⟩

theorem hostSafe_of (s : SQSRequest) (hr : ∀ b ∈ s.RegionId, safeByte b = true) :
    ∀ b ∈ bts "sqs." ++ s.RegionId ++ bts ".amazonaws.com", safeByte b = true := by
  intro b hb
  rcases List.mem_append.mp hb with hb | hb
  · rcases List.mem_append.mp hb with hb | hb
    · exact (by decide : ∀ x ∈ bts "sqs.", safeByte x = true) b hb
    · exact hr b hb
  · exact (by decide : ∀ x ∈ bts ".amazonaws.com", safeByte x = true) b hb

theorem parse_generateSQSQueueURI (s : SQSRequest)
    (hr : ∀ b ∈ s.RegionId, safeByte b = true)
    (hu : ∀ b ∈ s.UUID, safeByte b = true)
    (hq : ∀ b ∈ s.QueueName, safeByte b = true) :
    parseURL (generateSQSQueueURI s)
      = some ⟨bts "https", bts "sqs." ++ s.RegionId ++ bts ".amazonaws.com",
          [47] ++ s.UUID ++ [47] ++ s.QueueName ++ [47]⟩ := by
  have htail : ∀ b ∈ s.UUID ++ 47 :: (s.QueueName ++ [47]), pathByte b = true := by
    intro b hb
    rcases List.mem_append.mp hb with hb | hb
    · simp [pathByte, hu b hb]
    rcases List.mem_cons.mp hb with hb | hb
    · subst hb; decide
    rcases List.mem_append.mp hb with hb | hb
    · simp [pathByte, hq b hb]
    · rw [List.mem_singleton] at hb
      subst hb; decide
  have hpath_eq : ([47] : List Nat) ++ s.UUID ++ [47] ++ s.QueueName ++ [47]
      = 47 :: (s.UUID ++ 47 :: (s.QueueName ++ [47])) := by
    simp [List.append_assoc]
  have hgen : generateSQSQueueURI s
      = urlString ⟨bts "https", bts "sqs." ++ s.RegionId ++ bts ".amazonaws.com",
          47 :: (s.UUID ++ 47 :: (s.QueueName ++ [47]))⟩ := by
    unfold generateSQSQueueURI
    rw [← hpath_eq]
  rw [hgen, parseURL_urlString_safe _ _ (hostSafe_of s hr) htail, hpath_eq]

theorem parse_generateSQSURI (s : SQSRequest)
    (hr : ∀ b ∈ s.RegionId, safeByte b = true)
    (hu : ∀ b ∈ s.UUID, safeByte b = true)
    (hq : ∀ b ∈ s.QueueName, safeByte b = true) :
    parseURL (generateSQSURI s)
      = some ⟨bts "https", bts "sqs." ++ s.RegionId ++ bts ".amazonaws.com", [47]⟩ := by
  unfold generateSQSURI
  rw [parse_generateSQSQueueURI s hr hu hq]
  exact parseURL_urlString_safe _ [] (hostSafe_of s hr)
    (fun b hb => absurd hb (List.not_mem_nil b))

/-- C6: every queue-scoped action (SendMessage, ReceiveMessage,
DeleteMessage) dispatches to the URL with host `sqs.<region>.amazonaws.com`
and path `/<accountId>/<queueName>/`, and every account-scoped action
(CreateQueue, ListQueues, GetQueueUrl) dispatches to the same host with path
`/` (for identifier components free of URL metacharacters). -/
theorem action_dispatch_url_host_path (call : ActionCall) (s : SQSRequest)
    (ts : List Nat)
    (hr : ∀ b ∈ s.RegionId, safeByte b = true)
    (hu : ∀ b ∈ s.UUID, safeByte b = true)
    (hq : ∀ b ∈ s.QueueName, safeByte b = true) :
    ∃ req : SentRequest,
      assembleRequest s (actionParams s call) (actionIsQueue call) ts = .ok req
      ∧ req.method = bts "POST"
      ∧ req.url.host = bts "sqs." ++ s.RegionId ++ bts ".amazonaws.com"
      ∧ req.url.path = (if actionIsQueue call then
          [47] ++ s.UUID ++ [47] ++ s.QueueName ++ [47] else [47]) := by
  cases hcq : actionIsQueue call
  case true =>
    simp only [assembleRequest, endpointURI, if_true]
    rw [parse_generateSQSQueueURI s hr hu hq]
    exact ⟨_, rfl, rfl, rfl, rfl⟩
  case false =>
    simp only [assembleRequest, endpointURI, Bool.false_eq_true, if_false]
    rw [parse_generateSQSURI s hr hu hq]
    exact ⟨_, rfl, rfl, rfl, rfl⟩

/-- Witness for C6 with a concrete configuration and the ReceiveMessage
action. -/
theorem action_dispatch_witness :
    ∃ req : SentRequest,
      assembleRequest ⟨bts "us-east-1", bts "123", bts "testq", bts "AK", bts "SEC"⟩
          (actionParams ⟨bts "us-east-1", bts "123", bts "testq", bts "AK", bts "SEC"⟩
            .receiveMessage)
          (actionIsQueue .receiveMessage) (bts "2013-01-01T00:00:00Z") = .ok req
      ∧ req.method = bts "POST"
      ∧ req.url.host = bts "sqs." ++ bts "us-east-1" ++ bts ".amazonaws.com"
      ∧ req.url.path = (if actionIsQueue .receiveMessage then
          [47] ++ bts "123" ++ [47] ++ bts "testq" ++ [47] else [47]) :=
  action_dispatch_url_host_path .receiveMessage
    ⟨bts "us-east-1", bts "123", bts "testq", bts "AK", bts "SEC"⟩
    (bts "2013-01-01T00:00:00Z") (by decide) (by decide) (by decide)
